import Mathlib

/-
Verification of the layout and compositing engine of the freeprintsplitter
repository. JavaScript numbers are modelled as rationals, object identifiers
as naturals, and the asynchronous ingestion boundary as explicit lists of
decode outcomes.
-/

namespace FreePrint

/-- The fixed score penalty per empty grid cell (`padPenalty = 50`). -/
def padPenalty : ℚ := 50

/-- The record returned by `computeGrid`. -/
structure GridResult where
  cols : ℕ
  rows : ℕ
  cellW : ℚ
  cellH : ℚ
deriving DecidableEq

/-- One iteration of the `for (let cols = 1; cols <= count; ...)` loop of
`computeGrid`: `rows = Math.ceil(count / cols)`, `cellW = W/cols - 2P`,
`cellH = H/rows - 2P`; infeasible configurations (a cell dimension at or
below zero) are skipped, and a feasible one replaces the accumulator exactly
when its score is strictly larger. The initial score of `-Infinity` is
modelled by `Option.none`. -/
def gridStep (count : ℕ) (W H P : ℚ) (acc : GridResult × Option ℚ) (cols : ℕ) :
    GridResult × Option ℚ :=
  let rows : ℕ := (count + cols - 1) / cols
  let cellW : ℚ := W / (cols : ℚ) - P * 2
  let cellH : ℚ := H / (rows : ℚ) - P * 2
  if cellW ≤ 0 ∨ cellH ≤ 0 then acc
  else
    let emptyCells : ℚ := ((rows * cols - count : ℕ) : ℚ)
    let score := cellW * cellH - emptyCells * padPenalty
    match acc.2 with
    | none => (⟨cols, rows, cellW, cellH⟩, some score)
    | some bestScore =>
      if bestScore < score then (⟨cols, rows, cellW, cellH⟩, some score) else acc

/-- `computeGrid` from the single free-form sheet mode. For `count = 0` it
returns one full-canvas cell; otherwise the fallback accumulator is a single
column of `count` rows (the JavaScript guard `canvasHeight / count ||
canvasHeight` agrees with `canvasHeight / count` for every `count ≥ 1`), and
the loop scans `cols = 1 .. count`. -/
def computeGrid (count : ℕ) (W H P : ℚ) : GridResult :=
  if count = 0 then ⟨1, 1, W, H⟩
  else
    (((List.range count).map (· + 1)).foldl (gridStep count W H P)
      (⟨1, count, W - P * 2, H / (count : ℚ) - P * 2⟩, none)).1

/-- A decoded library image, reduced to the fields the layout engine reads;
identifiers are modelled as naturals, the object URL, file name and drawable
handle are dropped. -/
structure ImageRec where
  id : ℕ
  width : ℚ
  height : ℚ
deriving DecidableEq

/-- A card slot: optional image reference plus rotation and pan offsets. -/
structure Slot where
  id : ℕ
  image : Option ImageRec
  rotationDeg : ℚ
  offsetX : ℚ
  offsetY : ℚ
deriving DecidableEq

inductive Orientation where
  | landscape
  | portrait
deriving DecidableEq

/-- A card: four slots on one sheet (the slot list is kept general here; the
application always builds cards with exactly four slots). Colors are
modelled as naturals. -/
structure Card where
  id : ℕ
  paddingColor : ℕ
  orientation : Orientation
  slots : List Slot
deriving DecidableEq

def CM_WIDTH : ℚ := 15
def CM_HEIGHT : ℚ := 10
def DPI : ℚ := 300
def SLOT_COUNT : ℕ := 4
def SLOTS_PER_ROW : ℕ := 2
def MAX_CARD_SCALE : ℚ := 4
def DEFAULT_PADDING_COLOR : ℕ := 0xf4edde

structure Size where
  width : ℚ
  height : ℚ
deriving DecidableEq

/-- `Math.round((CM_WIDTH / 2.54) * DPI)` by `Math.round((CM_HEIGHT / 2.54)
* DPI)`; evaluates to `1772 × 1181`. -/
def LANDSCAPE_SIZE : Size :=
  ⟨((round ((CM_WIDTH / (254 / 100)) * DPI) : ℤ) : ℚ),
    ((round ((CM_HEIGHT / (254 / 100)) * DPI) : ℤ) : ℚ)⟩

def PORTRAIT_SIZE : Size := ⟨LANDSCAPE_SIZE.height, LANDSCAPE_SIZE.width⟩

def getSizeForOrientation : Orientation → Size
  | .landscape => LANDSCAPE_SIZE
  | .portrait => PORTRAIT_SIZE

/-- `clamp(val, min, max) = Math.min(max, Math.max(min, val))`. -/
def clamp (val lo hi : ℚ) : ℚ := min hi (max lo val)

/-- The geometry of one slot as computed by `getSlotMetrics`: outer
rectangle from the fixed `2 × 2` grid, effective padding, padding-inset
inner rectangle floored at one pixel, and the inner center point. -/
structure SlotMetrics where
  x : ℚ
  y : ℚ
  outerW : ℚ
  outerH : ℚ
  innerW : ℚ
  innerH : ℚ
  centerX : ℚ
  centerY : ℚ
  pad : ℚ
deriving DecidableEq

/-- `getSlotMetrics(index, size, padding)`: a pure function of the slot
index (column `index % 2`, row `index / 2`), the sheet pixel size and the
requested padding. -/
def getSlotMetrics (index : ℕ) (size : Size) (padding : ℚ) : SlotMetrics :=
  let cols := SLOTS_PER_ROW
  let rows := SLOT_COUNT / cols
  let outerW := size.width / (cols : ℚ)
  let outerH := size.height / (rows : ℚ)
  let col := index % cols
  let row := index / cols
  let x := (col : ℚ) * outerW
  let y := (row : ℚ) * outerH
  let pad := max 0 (min padding (min outerW outerH / 2 - 1))
  let innerW := max (outerW - pad * 2) 1
  let innerH := max (outerH - pad * 2) 1
  ⟨x, y, outerW, outerH, innerW, innerH, x + pad + innerW / 2, y + pad + innerH / 2, pad⟩

/-- The cover-fit draw rectangle of `getImagePlacement`. -/
structure Placement where
  drawW : ℚ
  drawH : ℚ
  offsetX : ℚ
  offsetY : ℚ
  innerLeft : ℚ
  innerTop : ℚ
  maxOffsetX : ℚ
  maxOffsetY : ℚ
deriving DecidableEq

/-- `getImagePlacement(slot, metrics)`: `none` for an empty slot, otherwise
the cover-fit scale `max(innerW/imageW, innerH/imageH)`, the scaled draw
rectangle, and the pan offset clamped into the overscan range. -/
def getImagePlacement (slot : Slot) (metrics : SlotMetrics) : Option Placement :=
  match slot.image with
  | none => none
  | some img =>
    let baseScale := max (metrics.innerW / img.width) (metrics.innerH / img.height)
    let drawW := img.width * baseScale
    let drawH := img.height * baseScale
    let maxOffsetX := max 0 ((drawW - metrics.innerW) / 2)
    let maxOffsetY := max 0 ((drawH - metrics.innerH) / 2)
    let clampedX := clamp slot.offsetX (-maxOffsetX) maxOffsetX
    let clampedY := clamp slot.offsetY (-maxOffsetY) maxOffsetY
    some ⟨drawW, drawH, clampedX, clampedY,
      metrics.innerW / 2 + clampedX - drawW / 2,
      metrics.innerH / 2 + clampedY - drawH / 2,
      maxOffsetX, maxOffsetY⟩

/-- The `forEach` accumulation step inside `getCardScale`: running maximum
of `g` over the placed images, skipping empty slots. -/
def maxStep (g : ImageRec → ℚ) (m : ℚ) (s : Slot) : ℚ :=
  match s.image with
  | some img => max m (g img)
  | none => m

/-- Maximum of `g` over a card slot list, starting from `0`
(the `maxW` / `maxH` scan of `getCardScale`). -/
def maxPlaced (g : ImageRec → ℚ) (slots : List Slot) : ℚ :=
  slots.foldl (maxStep g) 0

/-- `getCardScale(card, padding)`: `1` when the placed-image scan yields a
zero maximum, otherwise the needed scale against the inner slot rectangle
of slot `0`, clamped into `[1, MAX_CARD_SCALE]`. -/
def getCardScale (card : Card) (padding : ℚ) : ℚ :=
  let metrics := getSlotMetrics 0 (getSizeForOrientation card.orientation) padding
  let maxW := maxPlaced (fun i => i.width) card.slots
  let maxH := maxPlaced (fun i => i.height) card.slots
  if maxW = 0 ∨ maxH = 0 then 1
  else clamp (max (maxW / metrics.innerW) (maxH / metrics.innerH)) 1 MAX_CARD_SCALE

/-- The record returned by `getScaledCardSize`. -/
structure ScaledSize where
  width : ℤ
  height : ℤ
  scale : ℚ
deriving DecidableEq

/-- `getScaledCardSize(card, padding)`: both base sheet dimensions times the
card scale, rounded to integer pixels (`Math.round`, which equals
`⌊x + 1/2⌋`). -/
def getScaledCardSize (card : Card) (padding : ℚ) : ScaledSize :=
  let base := getSizeForOrientation card.orientation
  let scale := getCardScale card padding
  ⟨round (base.width * scale), round (base.height * scale), scale⟩

/-- `placeImage(cardId, slotId, imageId)` from the card mode: a no-op when
no library image has the requested id, otherwise the addressed slot of the
addressed card receives the image with rotation and offsets reset to `0`. -/
def placeImage (images : List ImageRec) (cards : List Card)
    (cardId slotId imageId : ℕ) : List Card :=
  match images.find? (fun i => i.id == imageId) with
  | none => cards
  | some img =>
    cards.map fun card =>
      if card.id = cardId then
        { card with
          slots := card.slots.map fun slot =>
            if slot.id = slotId then
              { slot with image := some img, rotationDeg := 0, offsetX := 0, offsetY := 0 }
            else slot }
      else card

/-- `removeImageFromCards(imageId)`: every slot referencing the removed
image is cleared (image dropped, rotation reset); all other slots are kept
as they are. -/
def removeImageFromCards (imageId : ℕ) (cards : List Card) : List Card :=
  cards.map fun card =>
    { card with
      slots := card.slots.map fun slot =>
        match slot.image with
        | some img =>
          if img.id = imageId then { slot with image := none, rotationDeg := 0 } else slot
        | none => slot }

/-- Per-slot frame condition of removing image `imageId`: a slot referencing
it becomes empty; a slot referencing a different image, or an empty slot, is
returned unchanged. -/
def removeSlotRel (imageId : ℕ) (s s2 : Slot) : Prop :=
  (∀ img, s.image = some img → img.id = imageId → s2.image = none) ∧
    (∀ img, s.image = some img → img.id ≠ imageId → s2 = s) ∧
    (s.image = none → s2 = s)

/-- Per-card frame condition of removing image `imageId`: all card fields
besides the slots are unchanged and the slots are related pointwise. -/
def removeCardRel (imageId : ℕ) (card card2 : Card) : Prop :=
  card2.id = card.id ∧ card2.paddingColor = card.paddingColor ∧
    card2.orientation = card.orientation ∧
    List.Forall₂ (removeSlotRel imageId) card.slots card2.slots

/-- Per-slot frame condition of placing image `img` at `(cardId, slotId)`:
the addressed slot receives the image with rotation and offsets reset to
`0`; every other slot is returned unchanged. -/
def placeSlotRel (img : ImageRec) (cardId slotId : ℕ) (card : Card) (s s2 : Slot) : Prop :=
  (card.id = cardId → s.id = slotId →
      s2 = { s with image := some img, rotationDeg := 0, offsetX := 0, offsetY := 0 }) ∧
    (¬ (card.id = cardId ∧ s.id = slotId) → s2 = s)

/-- Per-card frame condition of placing image `img` at `(cardId, slotId)`. -/
def placeCardRel (img : ImageRec) (cardId slotId : ℕ) (card card2 : Card) : Prop :=
  card2.id = card.id ∧ card2.paddingColor = card.paddingColor ∧
    card2.orientation = card.orientation ∧
    List.Forall₂ (placeSlotRel img cardId slotId card) card.slots card2.slots

/-- `createEmptyCard()`: a landscape card with four empty slots, rotation
and offsets zero. The random `buildId()` identifiers are modelled by a
deterministic seed. -/
def createEmptyCard (seed : ℕ) : Card :=
  ⟨seed, DEFAULT_PADDING_COLOR, .landscape,
    (List.range SLOT_COUNT).map (fun i => ⟨seed * SLOT_COUNT + i + 1, none, 0, 0, 0⟩)⟩

/-- The inner loop of `autoFill` over the slot list of one card: walk the slots
in index order; each empty slot takes the next queued image with rotation
and offsets reset to `0`; filled slots and, once the queue is exhausted,
all remaining slots pass through unchanged. Returns the updated slots and
the remaining queue. -/
def fillSlots : List Slot → List ImageRec → List Slot × List ImageRec
  | [], queue => ([], queue)
  | slot :: rest, queue =>
    match slot.image, queue with
    | none, img :: qrest =>
      let p := fillSlots rest qrest
      ({ slot with image := some img, rotationDeg := 0, offsetX := 0, offsetY := 0 } :: p.1,
        p.2)
    | _, _ =>
      let p := fillSlots rest queue
      (slot :: p.1, p.2)

/-- The pass of `autoFill` over the existing cards, in order. -/
def fillCards : List Card → List ImageRec → List Card × List ImageRec
  | [], queue => ([], queue)
  | card :: rest, queue =>
    let p := fillSlots card.slots queue
    let q := fillCards rest p.2
    ({ card with slots := p.1 } :: q.1, q.2)

/-- The `while (idx < queue.length)` loop of `autoFill` that appends a
fresh card and fills it while unplaced images remain, written with an
explicit iteration bound: every iteration consumes at least one queued
image, so `queue.length` iterations always suffice. -/
def fillNewCardsAux : ℕ → ℕ → List ImageRec → List Card
  | 0, _, _ => []
  | _ + 1, _, [] => []
  | fuel + 1, seed, img :: rest =>
    { createEmptyCard seed with
        slots := (fillSlots (createEmptyCard seed).slots (img :: rest)).1 } ::
      fillNewCardsAux fuel (seed + 1) (fillSlots (createEmptyCard seed).slots (img :: rest)).2

def fillNewCards (seed : ℕ) (queue : List ImageRec) : List Card :=
  fillNewCardsAux queue.length seed queue

/-- The image ids already referenced by some slot (the key set of the
`imageUsage` map). -/
def usedIds (cards : List Card) : List ℕ :=
  ((cards.map Card.slots).flatten).filterMap (fun s => s.image.map (fun i => i.id))

/-- The queue of library images not yet referenced by any slot, in library
order. -/
def autoQueue (images : List ImageRec) (cards : List Card) : List ImageRec :=
  images.filter (fun img => !((usedIds cards).contains img.id))

/-- `autoFill`: a no-op when every library image is already referenced;
otherwise fill the empty slots of the existing cards in order, then append
new cards while images remain. -/
def autoFill (seed : ℕ) (images : List ImageRec) (cards : List Card) : List Card :=
  if (autoQueue images cards).isEmpty then cards
  else
    (fillCards cards (autoQueue images cards)).1 ++
      fillNewCards seed (fillCards cards (autoQueue images cards)).2

/-- Number of empty slots in a slot list. -/
def emptyCountSlots (slots : List Slot) : ℕ :=
  slots.countP (fun s => s.image.isNone)

/-- Number of empty slots across a card collection. -/
def emptyCount (cards : List Card) : ℕ :=
  (cards.map (fun c => emptyCountSlots c.slots)).sum

/-- Total number of slots across a card collection. -/
def totalSlots (cards : List Card) : ℕ :=
  (cards.map (fun c => c.slots.length)).sum

/-- The slot contents of a card collection, flattened in walk order (cards
in order, slots in index order). -/
def slotImages (cards : List Card) : List (Option ImageRec) :=
  (cards.map (fun c => c.slots.map (fun s => s.image))).flatten

/-- All slots of a card collection, in walk order. -/
def flatSlots (cards : List Card) : List Slot :=
  (cards.map Card.slots).flatten

/-- The allocation order the specification demands, stated at the level of
flattened slot contents: walking the positions in order, each empty
position takes the next queued image, in queue order; other positions are
unchanged. Used to state that `autoFill` assigns in library order. -/
def fillOptImages : List (Option ImageRec) → List ImageRec → List (Option ImageRec)
  | [], _ => []
  | none :: rest, [] => none :: fillOptImages rest []
  | none :: rest, img :: qrest => some img :: fillOptImages rest qrest
  | some i :: rest, queue => some i :: fillOptImages rest queue

instance {ε α : Type} [DecidableEq ε] [DecidableEq α] : DecidableEq (Except ε α) := fun a b =>
  match a, b with
  | .ok x, .ok y =>
    if h : x = y then .isTrue (by rw [h]) else .isFalse (fun hc => h (by cases hc; rfl))
  | .ok _, .error _ => .isFalse (fun hc => Except.noConfusion hc)
  | .error _, .ok _ => .isFalse (fun hc => Except.noConfusion hc)
  | .error x, .error y =>
    if h : x = y then .isTrue (by rw [h]) else .isFalse (fun hc => h (by cases hc; rfl))

/-- One entry at the ingestion boundary: whether its declared media type
begins with the image marker, and the decode outcome its load would
deliver (decode errors carry no data the caller inspects). -/
structure FileInput where
  typeIsImage : Bool
  decode : Except Unit ImageRec
deriving DecidableEq

/-- `Promise.all`: resolves with the list of all results, or rejects as
soon as any entry rejects. -/
def promiseAll {ε α : Type} : List (Except ε α) → Except ε (List α)
  | [] => .ok []
  | .error e :: _ => .error e
  | .ok a :: rest => (promiseAll rest).map (fun l => a :: l)

/-- `loadImages(files)`: keep only the image-typed files and combine their
decodes with `Promise.all`. -/
def loadImages (files : List FileInput) : Except Unit (List ImageRec) :=
  promiseAll ((files.filter (fun f => f.typeIsImage)).map (fun f => f.decode))

/-- `handleFiles`: `await loadImages(files)` followed by appending the
loaded batch to the library; a rejected promise aborts before the append,
leaving the library untouched. -/
def handleFiles (library : List ImageRec) (files : List FileInput) : List ImageRec :=
  match loadImages files with
  | .ok loaded => library ++ loaded
  | .error _ => library

/-- A concrete `4 × 3` library image used to exercise the theorems. -/
def imgA : ImageRec := ⟨1, 4, 3⟩

/-- A concrete landscape card holding `imgA` in its first slot. -/
def cardA : Card :=
  ⟨1, DEFAULT_PADDING_COLOR, .landscape,
    [⟨10, some imgA, 0, 0, 0⟩, ⟨11, none, 0, 0, 0⟩, ⟨12, none, 0, 0, 0⟩, ⟨13, none, 0, 0, 0⟩]⟩

def img2 : ImageRec := ⟨2, 4, 3⟩
def img3 : ImageRec := ⟨3, 4, 3⟩
def img4 : ImageRec := ⟨4, 4, 3⟩
def img5 : ImageRec := ⟨5, 4, 3⟩
def img6 : ImageRec := ⟨6, 4, 3⟩

/-- A six-image library, none of them placed anywhere. -/
def imgs6 : List ImageRec := [imgA, img2, img3, img4, img5, img6]

/-- A concrete card with three of its four slots already filled. -/
def cardNearFull : Card :=
  ⟨1, DEFAULT_PADDING_COLOR, .landscape,
    [⟨10, some imgA, 0, 0, 0⟩, ⟨11, some img2, 0, 0, 0⟩, ⟨12, some img3, 0, 0, 0⟩,
      ⟨13, none, 0, 0, 0⟩]⟩

/-- A concrete image-typed file whose decode succeeds. -/
def fileOk : FileInput := ⟨true, .ok imgA⟩

/-- A concrete image-typed file whose decode fails. -/
def fileBad : FileInput := ⟨true, .error ()⟩

end FreePrint

namespace FreePrint

/-- Folding a function that fixes the accumulator leaves it unchanged. -/
theorem foldl_fixed {α β : Type} (f : β → α → β) (b : β) :
    ∀ l : List α, (∀ a ∈ l, f b a = b) → l.foldl f b = b
  | [], _ => rfl
  | a :: l, h => by
    rw [List.foldl_cons, h a (List.mem_cons_self a l)]
    exact foldl_fixed f b l (fun x hx => h x (List.mem_cons_of_mem a hx))

/-- C1 (counterexample): at `count = 3`, `W = 1772`, `H = 1181`, `P = 18` the
grid packer does not return the claimed `cols = 2, rows = 2` configuration. -/
theorem computeGrid_three_not_two_by_two :
    ¬ ((computeGrid 3 1772 1181 18).cols = 2 ∧ (computeGrid 3 1772 1181 18).rows = 2) := by
  norm_num [computeGrid, gridStep, padPenalty, List.range_succ]

/-- C1 (amended): at `count = 3`, `W = 1772`, `H = 1181`, `P = 18` the grid
packer selects `cols = 3, rows = 1` (zero empty cells): the single-row strip
has per-cell area `(1664/3) * 1145 ≈ 635093`, which beats both the single
column (`≈ 620909`) and the `2 × 2` configuration (score `471275` after the
one-empty-cell penalty). -/
theorem computeGrid_three_picks_one_row :
    computeGrid 3 1772 1181 18 = ⟨3, 1, 1664 / 3, 1145⟩ := by
  norm_num [computeGrid, gridStep, padPenalty, List.range_succ]

/-- C4 (counterexample): the fallback layout does not deliver
positive-or-zero cell dimensions. At `count = 1`, `W = 100`, `H = 100`,
`P = 60` no configuration is feasible and the returned single-column cell
has negative width and height (`-20`), returned as-is. -/
theorem computeGrid_fallback_negative :
    (computeGrid 1 100 100 60).cols = 1 ∧ (computeGrid 1 100 100 60).rows = 1 ∧
      (computeGrid 1 100 100 60).cellW < 0 ∧ (computeGrid 1 100 100 60).cellH < 0 := by
  norm_num [computeGrid, gridStep, padPenalty, List.range_succ]

/-- C4 (amended): for `count = 0` the grid packer returns one cell covering
the full canvas; for `count = N ≥ 1`, whenever every configuration
`cols = 1 .. N` with `rows = ceil(N / cols)` has a cell dimension at or
below zero, the packer falls back to the single-column layout
`cols = 1, rows = N` with `cellW = W - 2P` and `cellH = H/N - 2P` returned
as-is — these best-effort sizes may be negative; they are not clamped to
zero — rather than failing. -/
theorem computeGrid_degenerate (N : ℕ) (W H P : ℚ) :
    computeGrid 0 W H P = ⟨1, 1, W, H⟩ ∧
      (1 ≤ N →
        (∀ cols : ℕ, 1 ≤ cols → cols ≤ N →
          W / (cols : ℚ) - P * 2 ≤ 0 ∨
            H / ((((N + cols - 1) / cols : ℕ)) : ℚ) - P * 2 ≤ 0) →
        computeGrid N W H P = ⟨1, N, W - P * 2, H / (N : ℚ) - P * 2⟩) := by
  constructor
  · simp [computeGrid]
  · intro hN hinf
    have hNz : N ≠ 0 := by omega
    unfold computeGrid
    rw [if_neg hNz]
    rw [foldl_fixed]
    intro a ha
    simp only [List.mem_map, List.mem_range] at ha
    obtain ⟨x, hx, rfl⟩ := ha
    have h1 : 1 ≤ x + 1 := by omega
    have h2 : x + 1 ≤ N := by omega
    unfold gridStep
    rw [if_pos (hinf (x + 1) h1 h2)]

/-- C4 (witness): with one item on a `100 × 100` canvas and padding `60`
the single `cols = 1` configuration is infeasible, so the fallback layout
is returned, with negative best-effort cell sizes. -/
theorem computeGrid_degenerate_witness :
    computeGrid 1 100 100 60 = ⟨1, 1, (100 : ℚ) - 60 * 2, (100 : ℚ) / ((1 : ℕ) : ℚ) - 60 * 2⟩ :=
  (computeGrid_degenerate 1 100 100 60).2 (by norm_num)
    (fun cols h1 h2 => by
      have hc : cols = 1 := by omega
      subst hc
      left
      norm_num)

/-- C6: for every slot holding an image and every slot geometry with a
positive inner rectangle and positive image natural size, the cover-fit
draw rectangle never under-covers the inner rectangle: `innerW ≤ drawW` and
`innerH ≤ drawH` hold exactly in rational arithmetic, hence a fortiori
within any nonnegative tolerance `ε`. -/
theorem getImagePlacement_covers (slot : Slot) (m : SlotMetrics) (img : ImageRec)
    (hs : slot.image = some img) (hW : 0 < m.innerW) (hH : 0 < m.innerH)
    (hw : 0 < img.width) (hh : 0 < img.height) :
    ∃ p, getImagePlacement slot m = some p ∧ m.innerW ≤ p.drawW ∧ m.innerH ≤ p.drawH := by
  simp only [getImagePlacement, hs]
  refine ⟨_, rfl, ?_, ?_⟩
  · calc m.innerW = m.innerW / img.width * img.width :=
          (div_mul_cancel₀ _ (ne_of_gt hw)).symm
      _ = img.width * (m.innerW / img.width) := mul_comm _ _
      _ ≤ img.width * max (m.innerW / img.width) (m.innerH / img.height) :=
          mul_le_mul_of_nonneg_left (le_max_left _ _) (le_of_lt hw)
  · calc m.innerH = m.innerH / img.height * img.height :=
          (div_mul_cancel₀ _ (ne_of_gt hh)).symm
      _ = img.height * (m.innerH / img.height) := mul_comm _ _
      _ ≤ img.height * max (m.innerW / img.width) (m.innerH / img.height) :=
          mul_le_mul_of_nonneg_left (le_max_right _ _) (le_of_lt hh)

/-- C6 (witness): the `4 × 3` image placed in slot `0` of a `1772 × 1181`
sheet with padding `18` is drawn at least as large as the inner rectangle. -/
theorem getImagePlacement_covers_witness :
    ∃ p, getImagePlacement ⟨10, some imgA, 0, 0, 0⟩ (getSlotMetrics 0 ⟨1772, 1181⟩ 18) = some p ∧
      (getSlotMetrics 0 ⟨1772, 1181⟩ 18).innerW ≤ p.drawW ∧
      (getSlotMetrics 0 ⟨1772, 1181⟩ 18).innerH ≤ p.drawH :=
  getImagePlacement_covers _ _ imgA rfl
    (by norm_num [getSlotMetrics, SLOTS_PER_ROW, SLOT_COUNT])
    (by norm_num [getSlotMetrics, SLOTS_PER_ROW, SLOT_COUNT])
    (by norm_num [imgA]) (by norm_num [imgA])

/-- C9 (counterexample): the effective padding is not always inside the
claimed interval `[0, min(outerW, outerH)/2 - 1]`: for a tiny `1 × 1` sheet
the interval bound is `-3/4` while the computed padding is `0`. -/
theorem getSlotMetrics_pad_exceeds_claimed_bound :
    ¬ ((getSlotMetrics 0 ⟨1, 1⟩ 18).pad ≤
        min (getSlotMetrics 0 ⟨1, 1⟩ 18).outerW (getSlotMetrics 0 ⟨1, 1⟩ 18).outerH / 2 - 1) := by
  norm_num [getSlotMetrics, SLOTS_PER_ROW, SLOT_COUNT]

/-- C9 (amended): for every slot index, sheet size and requested padding,
the effective padding lies in `[0, max(0, min(outerW, outerH)/2 - 1)]` (the
upper bound is floored at zero, which matters only for sheets smaller than
four pixels), and both inner dimensions are at least one pixel, so the
inner rectangle is never degenerate or negative. -/
theorem getSlotMetrics_safe (index : ℕ) (size : Size) (padding : ℚ) :
    0 ≤ (getSlotMetrics index size padding).pad ∧
      (getSlotMetrics index size padding).pad ≤
        max 0 (min (getSlotMetrics index size padding).outerW
          (getSlotMetrics index size padding).outerH / 2 - 1) ∧
      1 ≤ (getSlotMetrics index size padding).innerW ∧
      1 ≤ (getSlotMetrics index size padding).innerH := by
  simp only [getSlotMetrics]
  exact ⟨le_max_left _ _, max_le_max (le_refl 0) (min_le_right _ _),
    le_max_right _ _, le_max_right _ _⟩

/-- The starting accumulator is a lower bound of the running-maximum scan. -/
theorem le_foldl_maxStep (g : ImageRec → ℚ) (slots : List Slot) :
    ∀ a : ℚ, a ≤ slots.foldl (maxStep g) a := by
  induction slots with
  | nil => intro a; simp
  | cons s rest ih =>
    intro a
    refine le_trans ?_ (ih (maxStep g a s))
    unfold maxStep
    cases s.image <;> simp

/-- Every placed image bounds the running-maximum scan from below. -/
theorem foldl_maxStep_mem (g : ImageRec → ℚ) (slots : List Slot) (s : Slot) (img : ImageRec)
    (hmem : s ∈ slots) (himg : s.image = some img) :
    ∀ a : ℚ, g img ≤ slots.foldl (maxStep g) a := by
  induction slots with
  | nil => simp at hmem
  | cons t rest ih =>
    intro a
    rcases List.mem_cons.mp hmem with h | h
    · subst h
      refine le_trans ?_ (le_foldl_maxStep g rest (maxStep g a s))
      unfold maxStep
      rw [himg]
      exact le_max_right _ _
    · rw [List.foldl_cons]
      exact ih h (maxStep g a t)

theorem le_maxPlaced (g : ImageRec → ℚ) (slots : List Slot) (s : Slot) (img : ImageRec)
    (hmem : s ∈ slots) (himg : s.image = some img) : g img ≤ maxPlaced g slots :=
  foldl_maxStep_mem g slots s img hmem himg 0

/-- The placed-image scan of a card with no placed image yields `0`. -/
theorem maxPlaced_of_all_empty (g : ImageRec → ℚ) (slots : List Slot)
    (h : ∀ s ∈ slots, s.image = none) : maxPlaced g slots = 0 := by
  induction slots with
  | nil => rfl
  | cons t rest ih =>
    have ht : t.image = none := h t (List.mem_cons_self t rest)
    simp only [maxPlaced, List.foldl_cons, maxStep, ht]
    exact ih (fun s hs => h s (List.mem_cons_of_mem t hs))

/-- C7: for every card whose placed images have positive natural size and
every padding, the upscale factor is exactly `1` when the card has no
placed image; otherwise it equals the needed scale
`max(maxPlacedW / innerW, maxPlacedH / innerH)` clamped into
`[1, MAX_CARD_SCALE]` with `MAX_CARD_SCALE = 4`; and each scaled sheet
dimension is the base dimension times that factor, rounded to integer
pixels. -/
theorem getCardScale_spec (card : Card) (padding : ℚ)
    (hpos : ∀ s ∈ card.slots, ∀ img, s.image = some img → 0 < img.width ∧ 0 < img.height) :
    ((∀ s ∈ card.slots, s.image = none) → getCardScale card padding = 1) ∧
      ((∃ s ∈ card.slots, s.image ≠ none) →
        getCardScale card padding =
          clamp
            (max
              (maxPlaced (fun i => i.width) card.slots /
                (getSlotMetrics 0 (getSizeForOrientation card.orientation) padding).innerW)
              (maxPlaced (fun i => i.height) card.slots /
                (getSlotMetrics 0 (getSizeForOrientation card.orientation) padding).innerH))
            1 MAX_CARD_SCALE) ∧
      getScaledCardSize card padding =
        ⟨round ((getSizeForOrientation card.orientation).width * getCardScale card padding),
          round ((getSizeForOrientation card.orientation).height * getCardScale card padding),
          getCardScale card padding⟩ := by
  refine ⟨?_, ?_, rfl⟩
  · intro hall
    simp only [getCardScale]
    rw [if_pos (Or.inl (maxPlaced_of_all_empty _ _ hall))]
  · rintro ⟨s, hs, hsi⟩
    obtain ⟨img, himg⟩ := Option.ne_none_iff_exists'.mp hsi
    have hwh := hpos s hs img himg
    have hW : (0 : ℚ) < maxPlaced (fun i => i.width) card.slots :=
      lt_of_lt_of_le hwh.1 (le_maxPlaced _ _ s img hs himg)
    have hH : (0 : ℚ) < maxPlaced (fun i => i.height) card.slots :=
      lt_of_lt_of_le hwh.2 (le_maxPlaced _ _ s img hs himg)
    simp only [getCardScale]
    rw [if_neg]
    push_neg
    exact ⟨ne_of_gt hW, ne_of_gt hH⟩

/-- C7 (witness): for the card holding only the `4 × 3` image at padding
`18`, the upscale factor is the clamped needed scale. -/
theorem getCardScale_spec_witness :
    getCardScale cardA 18 =
      clamp
        (max
          (maxPlaced (fun i => i.width) cardA.slots /
            (getSlotMetrics 0 (getSizeForOrientation cardA.orientation) 18).innerW)
          (maxPlaced (fun i => i.height) cardA.slots /
            (getSlotMetrics 0 (getSizeForOrientation cardA.orientation) 18).innerH))
        1 MAX_CARD_SCALE :=
  (getCardScale_spec cardA 18
      (by
        intro s hs img himg
        simp only [cardA, List.mem_cons, List.not_mem_nil, or_false] at hs
        rcases hs with h | h | h | h <;> subst h <;>
          simp only [imgA] at himg <;> first
            | (cases himg; norm_num)
            | simp at himg)).2.1
    ⟨⟨10, some imgA, 0, 0, 0⟩, by simp [cardA], by simp⟩

/-- C8: removing an image from the library clears exactly the slots that
reference it (each such slot becomes empty) and returns every slot
referencing a different image, and every empty slot, unchanged; all other
card fields are untouched. -/
theorem removeImage_clears_only_target (imageId : ℕ) (cards : List Card) :
    List.Forall₂ (removeCardRel imageId) cards (removeImageFromCards imageId cards) := by
  unfold removeImageFromCards
  rw [List.forall₂_map_right_iff, List.forall₂_same]
  intro card hc
  refine ⟨rfl, rfl, rfl, ?_⟩
  rw [List.forall₂_map_right_iff, List.forall₂_same]
  intro s hs
  refine ⟨?_, ?_, ?_⟩
  · intro img h1 h2
    simp only [h1]
    rw [if_pos h2]
  · intro img h1 h2
    simp only [h1]
    rw [if_neg h2]
  · intro h1
    simp only [h1]

/-- C8 (witness): removal of image `1` from a concrete one-card collection
satisfies the frame condition. -/
theorem removeImage_clears_only_target_witness :
    List.Forall₂ (removeCardRel 1) [cardA] (removeImageFromCards 1 [cardA]) :=
  removeImage_clears_only_target 1 [cardA]

/-- C10: the manual place operation either leaves the card collection
entirely unchanged (no library image has the requested id) or updates
exactly the addressed slot — image set, rotation and offsets reset to `0` —
leaving every other slot and every other card field unchanged. -/
theorem placeImage_frame (images : List ImageRec) (cards : List Card)
    (cardId slotId imageId : ℕ) :
    ((∀ i ∈ images, i.id ≠ imageId) →
        placeImage images cards cardId slotId imageId = cards) ∧
      (∀ img, images.find? (fun i => i.id == imageId) = some img →
        List.Forall₂ (placeCardRel img cardId slotId) cards
          (placeImage images cards cardId slotId imageId)) := by
  constructor
  · intro h
    have hfind : images.find? (fun i => i.id == imageId) = none := by
      rw [List.find?_eq_none]
      intro x hx
      simpa using h x hx
    simp only [placeImage, hfind]
  · intro img hfind
    simp only [placeImage, hfind]
    rw [List.forall₂_map_right_iff, List.forall₂_same]
    intro card hc
    by_cases hcid : card.id = cardId
    · rw [if_pos hcid]
      refine ⟨rfl, rfl, rfl, ?_⟩
      rw [List.forall₂_map_right_iff, List.forall₂_same]
      intro s hs
      by_cases hsid : s.id = slotId
      · rw [if_pos hsid]
        exact ⟨fun _ _ => rfl, fun hcon => absurd ⟨hcid, hsid⟩ hcon⟩
      · rw [if_neg hsid]
        exact ⟨fun _ h => absurd h hsid, fun _ => rfl⟩
    · rw [if_neg hcid]
      refine ⟨rfl, rfl, rfl, ?_⟩
      rw [List.forall₂_same]
      intro s hs
      exact ⟨fun h => absurd h hcid, fun _ => rfl⟩

/-- C10 (witness): placing an image id absent from the library leaves the
card collection unchanged. -/
theorem placeImage_frame_witness :
    placeImage [imgA] [cardA] 1 13 99 = [cardA] :=
  (placeImage_frame [imgA] [cardA] 1 13 99).1 (by norm_num [imgA])

theorem totalSlots_nil : totalSlots [] = 0 := rfl

theorem totalSlots_cons (c : Card) (cs : List Card) :
    totalSlots (c :: cs) = c.slots.length + totalSlots cs := by
  simp [totalSlots]

theorem totalSlots_append (xs ys : List Card) :
    totalSlots (xs ++ ys) = totalSlots xs + totalSlots ys := by
  simp [totalSlots]

theorem emptyCount_nil : emptyCount [] = 0 := rfl

theorem emptyCount_cons (c : Card) (cs : List Card) :
    emptyCount (c :: cs) = emptyCountSlots c.slots + emptyCount cs := by
  simp [emptyCount]

theorem emptyCount_append (xs ys : List Card) :
    emptyCount (xs ++ ys) = emptyCount xs + emptyCount ys := by
  simp [emptyCount]

theorem slotImages_nil : slotImages [] = [] := rfl

theorem slotImages_cons (c : Card) (cs : List Card) :
    slotImages (c :: cs) = c.slots.map (fun s => s.image) ++ slotImages cs := by
  simp [slotImages]

theorem slotImages_append (xs ys : List Card) :
    slotImages (xs ++ ys) = slotImages xs ++ slotImages ys := by
  simp [slotImages]

theorem flatSlots_nil : flatSlots [] = [] := rfl

theorem flatSlots_cons (c : Card) (cs : List Card) :
    flatSlots (c :: cs) = c.slots ++ flatSlots cs := by
  simp [flatSlots]

theorem flatSlots_append (xs ys : List Card) :
    flatSlots (xs ++ ys) = flatSlots xs ++ flatSlots ys := by
  simp [flatSlots]

/-- Filling preserves the number of slots of a card. -/
theorem fillSlots_fst_length (slots : List Slot) (queue : List ImageRec) :
    (fillSlots slots queue).1.length = slots.length := by
  induction slots generalizing queue with
  | nil => simp [fillSlots]
  | cons s rest ih =>
    cases hs : s.image with
    | none =>
      cases queue with
      | nil => simp [fillSlots, hs, ih]
      | cons a q => simp [fillSlots, hs, ih]
    | some img => simp [fillSlots, hs, ih]

/-- The queue remaining after one card equals the original queue with one
image dropped per empty slot served. -/
theorem fillSlots_snd (slots : List Slot) (queue : List ImageRec) :
    (fillSlots slots queue).2 = queue.drop (min (emptyCountSlots slots) queue.length) := by
  induction slots generalizing queue with
  | nil => simp [fillSlots, emptyCountSlots]
  | cons s rest ih =>
    cases hs : s.image with
    | none =>
      have hcount : emptyCountSlots (s :: rest) = emptyCountSlots rest + 1 := by
        simp [emptyCountSlots, List.countP_cons, hs]
      cases queue with
      | nil => simp [fillSlots, hs, ih]
      | cons a q =>
        simp only [fillSlots, hs, ih, hcount, List.length_cons, Nat.succ_min_succ,
          List.drop_succ_cons]
    | some img =>
      have hcount : emptyCountSlots (s :: rest) = emptyCountSlots rest := by
        simp [emptyCountSlots, List.countP_cons, hs]
      cases queue with
      | nil => simp [fillSlots, hs, ih, hcount]
      | cons a q => simp [fillSlots, hs, ih, hcount]

theorem fillSlots_snd_length (slots : List Slot) (queue : List ImageRec) :
    (fillSlots slots queue).2.length =
      queue.length - min (emptyCountSlots slots) queue.length := by
  rw [fillSlots_snd, List.length_drop]

/-- The filled slot contents of one card follow the specification-order
allocation. -/
theorem fillSlots_image_map (slots : List Slot) (queue : List ImageRec) :
    (fillSlots slots queue).1.map (fun s => s.image) =
      fillOptImages (slots.map (fun s => s.image)) queue := by
  induction slots generalizing queue with
  | nil => simp [fillSlots, fillOptImages]
  | cons s rest ih =>
    cases hs : s.image with
    | none =>
      cases queue with
      | nil => simp [fillSlots, fillOptImages, hs, ih]
      | cons a q => simp [fillSlots, fillOptImages, hs, ih]
    | some img =>
      cases queue with
      | nil => simp [fillSlots, fillOptImages, hs, ih]
      | cons a q => simp [fillSlots, fillOptImages, hs, ih]

/-- Every slot produced by filling is an original slot or has rotation and
offsets reset to zero. -/
theorem fillSlots_mem_reset (slots : List Slot) (queue : List ImageRec) :
    ∀ s2 ∈ (fillSlots slots queue).1,
      s2 ∈ slots ∨ (s2.rotationDeg = 0 ∧ s2.offsetX = 0 ∧ s2.offsetY = 0) := by
  induction slots generalizing queue with
  | nil => intro s2 h2; simp [fillSlots] at h2
  | cons s rest ih =>
    intro s2 h2
    cases hs : s.image with
    | none =>
      cases queue with
      | nil =>
        simp only [fillSlots, hs] at h2
        rcases List.mem_cons.mp h2 with h | h
        · exact Or.inl (h ▸ List.mem_cons_self s rest)
        · rcases ih [] s2 h with h3 | h3
          · exact Or.inl (List.mem_cons_of_mem s h3)
          · exact Or.inr h3
      | cons a q =>
        simp only [fillSlots, hs] at h2
        rcases List.mem_cons.mp h2 with h | h
        · subst h
          exact Or.inr ⟨rfl, rfl, rfl⟩
        · rcases ih q s2 h with h3 | h3
          · exact Or.inl (List.mem_cons_of_mem s h3)
          · exact Or.inr h3
    | some img =>
      simp only [fillSlots, hs] at h2
      rcases List.mem_cons.mp h2 with h | h
      · exact Or.inl (h ▸ List.mem_cons_self s rest)
      · rcases ih queue s2 h with h3 | h3
        · exact Or.inl (List.mem_cons_of_mem s h3)
        · exact Or.inr h3

/-- The number of empty slots of one card left unserved by the queue. -/
theorem fillSlots_emptyCount (slots : List Slot) (queue : List ImageRec) :
    emptyCountSlots (fillSlots slots queue).1 =
      emptyCountSlots slots - min (emptyCountSlots slots) queue.length := by
  induction slots generalizing queue with
  | nil => simp [fillSlots, emptyCountSlots]
  | cons s rest ih =>
    cases hs : s.image with
    | none =>
      cases queue with
      | nil =>
        have ihh := ih []
        simp [fillSlots, hs, emptyCountSlots, List.countP_cons] at ihh ⊢
        omega
      | cons a q =>
        have ihh := ih q
        simp [fillSlots, hs, emptyCountSlots, List.countP_cons] at ihh ⊢
        omega
    | some img =>
      cases queue with
      | nil =>
        have ihh := ih []
        simp [fillSlots, hs, emptyCountSlots, List.countP_cons] at ihh ⊢
        omega
      | cons a q =>
        have ihh := ih (a :: q)
        simp [fillSlots, hs, emptyCountSlots, List.countP_cons] at ihh ⊢
        omega

/-- An empty queue leaves every slot untouched. -/
theorem fillSlots_nil_queue (slots : List Slot) : fillSlots slots [] = (slots, []) := by
  induction slots with
  | nil => rfl
  | cons s rest ih =>
    cases hs : s.image with
    | none => simp [fillSlots, hs, ih]
    | some img => simp [fillSlots, hs, ih]

theorem fillCards_fst_length (cards : List Card) (queue : List ImageRec) :
    (fillCards cards queue).1.length = cards.length := by
  induction cards generalizing queue with
  | nil => simp [fillCards]
  | cons c rest ih => simp [fillCards, ih]

theorem fillCards_totalSlots (cards : List Card) (queue : List ImageRec) :
    totalSlots (fillCards cards queue).1 = totalSlots cards := by
  induction cards generalizing queue with
  | nil => simp [fillCards]
  | cons c rest ih =>
    simp only [fillCards]
    rw [totalSlots_cons, totalSlots_cons]
    simp only [fillSlots_fst_length, ih]

theorem fillCards_snd (cards : List Card) (queue : List ImageRec) :
    (fillCards cards queue).2 = queue.drop (min (emptyCount cards) queue.length) := by
  induction cards generalizing queue with
  | nil => simp [fillCards, emptyCount_nil]
  | cons c rest ih =>
    simp only [fillCards]
    rw [ih, fillSlots_snd, List.length_drop, List.drop_drop, emptyCount_cons]
    congr 1
    omega

theorem fillCards_snd_length (cards : List Card) (queue : List ImageRec) :
    (fillCards cards queue).2.length =
      queue.length - min (emptyCount cards) queue.length := by
  rw [fillCards_snd, List.length_drop]

theorem fillCards_emptyCount (cards : List Card) (queue : List ImageRec) :
    emptyCount (fillCards cards queue).1 =
      emptyCount cards - min (emptyCount cards) queue.length := by
  induction cards generalizing queue with
  | nil => simp [fillCards, emptyCount_nil]
  | cons c rest ih =>
    simp only [fillCards]
    rw [emptyCount_cons, emptyCount_cons, fillSlots_emptyCount, ih, fillSlots_snd,
      List.length_drop]
    omega

theorem fillCards_mem_reset (cards : List Card) (queue : List ImageRec) :
    ∀ s ∈ flatSlots (fillCards cards queue).1,
      s ∈ flatSlots cards ∨ (s.rotationDeg = 0 ∧ s.offsetX = 0 ∧ s.offsetY = 0) := by
  induction cards generalizing queue with
  | nil => intro s hs; simp [fillCards, flatSlots] at hs
  | cons c rest ih =>
    intro s hs
    simp only [fillCards] at hs
    rw [flatSlots_cons] at hs
    rcases List.mem_append.mp hs with h | h
    · rcases fillSlots_mem_reset c.slots queue s h with h2 | h2
      · exact Or.inl (by rw [flatSlots_cons]; exact List.mem_append_left _ h2)
      · exact Or.inr h2
    · rcases ih _ s h with h2 | h2
      · exact Or.inl (by rw [flatSlots_cons]; exact List.mem_append_right _ h2)
      · exact Or.inr h2

theorem fillOptImages_nil_queue (xs : List (Option ImageRec)) :
    fillOptImages xs [] = xs := by
  induction xs with
  | nil => rfl
  | cons o rest ih => cases o <;> simp [fillOptImages, ih]

theorem fillOptImages_append (xs ys : List (Option ImageRec)) (queue : List ImageRec) :
    fillOptImages (xs ++ ys) queue =
      fillOptImages xs queue ++
        fillOptImages ys
          (queue.drop (min (xs.countP (fun o => o.isNone)) queue.length)) := by
  induction xs generalizing queue with
  | nil => simp [fillOptImages]
  | cons o rest ih =>
    cases o with
    | none =>
      cases queue with
      | nil =>
        simp only [List.cons_append, List.append_eq, fillOptImages, ih, List.drop_nil]
      | cons a q =>
        have hcount : min ((none :: rest).countP (fun o => Option.isNone o)) (a :: q).length
            = min (rest.countP (fun o => Option.isNone o)) q.length + 1 := by
          simp [List.countP_cons]
          omega
        simp only [List.cons_append, List.append_eq, fillOptImages, ih, hcount,
          List.drop_succ_cons]
    | some i =>
      have hcount : ∀ n, min ((some i :: rest).countP (fun o => Option.isNone o)) n
          = min (rest.countP (fun o => Option.isNone o)) n := by
        intro n
        simp [List.countP_cons]
      simp only [List.cons_append, List.append_eq, fillOptImages, ih, hcount]

theorem countP_isNone_map (slots : List Slot) :
    (slots.map (fun s => s.image)).countP (fun o => o.isNone) = emptyCountSlots slots := by
  rw [List.countP_map]
  rfl

/-- The filled slot contents of the existing cards follow the
specification-order allocation of the whole flattened collection. -/
theorem fillCards_image_map (cards : List Card) (queue : List ImageRec) :
    slotImages (fillCards cards queue).1 = fillOptImages (slotImages cards) queue := by
  induction cards generalizing queue with
  | nil => simp [fillCards, fillOptImages, slotImages_nil]
  | cons c rest ih =>
    simp only [fillCards]
    rw [slotImages_cons, slotImages_cons, fillOptImages_append, countP_isNone_map,
      fillSlots_image_map, ih, fillSlots_snd]

theorem createEmptyCard_slots_length (seed : ℕ) :
    (createEmptyCard seed).slots.length = 4 := by
  simp [createEmptyCard, SLOT_COUNT]

theorem createEmptyCard_emptyCount (seed : ℕ) :
    emptyCountSlots (createEmptyCard seed).slots = 4 := by
  simp only [createEmptyCard, emptyCountSlots, List.countP_map]
  norm_num [SLOT_COUNT, List.countP, List.countP.go, List.range_succ]

theorem createEmptyCard_images (seed : ℕ) :
    (createEmptyCard seed).slots.map (fun s => s.image) = [none, none, none, none] := by
  simp [createEmptyCard, SLOT_COUNT, List.range_succ]

theorem createEmptyCard_mem_reset (seed : ℕ) :
    ∀ s ∈ (createEmptyCard seed).slots,
      s.rotationDeg = 0 ∧ s.offsetX = 0 ∧ s.offsetY = 0 := by
  intro s hs
  simp only [createEmptyCard, List.mem_map] at hs
  obtain ⟨i, hi, rfl⟩ := hs
  exact ⟨rfl, rfl, rfl⟩

theorem fillNewCardsAux_nil (fuel seed : ℕ) : fillNewCardsAux fuel seed [] = [] := by
  cases fuel <;> rfl

/-- The appended-cards loop creates exactly `ceil(queue.length / 4)` cards. -/
theorem fillNewCardsAux_length :
    ∀ (fuel seed : ℕ) (q : List ImageRec), q.length ≤ fuel →
      (fillNewCardsAux fuel seed q).length = (q.length + 3) / 4 := by
  intro fuel
  induction fuel with
  | zero =>
    intro seed q hq
    have hq2 : q = [] := List.eq_nil_of_length_eq_zero (by omega)
    subst hq2
    rfl
  | succ fuel ih =>
    intro seed q hq
    cases q with
    | nil => simp [fillNewCardsAux]
    | cons a q2 =>
      simp only [List.length_cons] at hq
      have hr : (fillSlots (createEmptyCard seed).slots (a :: q2)).2.length
          = q2.length + 1 - min 4 (q2.length + 1) := by
        rw [fillSlots_snd_length, createEmptyCard_emptyCount, List.length_cons]
      simp only [fillNewCardsAux, List.length_cons]
      rw [ih (seed + 1) _ (by rw [hr]; omega), hr]
      omega

/-- Each appended card carries exactly four slots. -/
theorem fillNewCardsAux_totalSlots :
    ∀ (fuel seed : ℕ) (q : List ImageRec), q.length ≤ fuel →
      totalSlots (fillNewCardsAux fuel seed q) = 4 * ((q.length + 3) / 4) := by
  intro fuel
  induction fuel with
  | zero =>
    intro seed q hq
    have hq2 : q = [] := List.eq_nil_of_length_eq_zero (by omega)
    subst hq2
    rfl
  | succ fuel ih =>
    intro seed q hq
    cases q with
    | nil => simp [fillNewCardsAux, totalSlots_nil]
    | cons a q2 =>
      simp only [List.length_cons] at hq
      have hr : (fillSlots (createEmptyCard seed).slots (a :: q2)).2.length
          = q2.length + 1 - min 4 (q2.length + 1) := by
        rw [fillSlots_snd_length, createEmptyCard_emptyCount, List.length_cons]
      simp only [fillNewCardsAux]
      rw [totalSlots_cons]
      simp only [fillSlots_fst_length, createEmptyCard_slots_length]
      rw [ih (seed + 1) _ (by rw [hr]; omega), hr]
      simp only [List.length_cons]
      omega

/-- The specification-order allocation over four empty positions. -/
theorem fillOptImages_four_none (q : List ImageRec) :
    fillOptImages [none, none, none, none] q =
      (q.take 4).map some ++ List.replicate (4 - min 4 q.length) none := by
  match q with
  | [] => rfl
  | [a] => rfl
  | [a, b] => rfl
  | [a, b, c] => rfl
  | a :: b :: c :: d :: q2 =>
    have h4 : min 4 (a :: b :: c :: d :: q2).length = 4 := by
      simp only [List.length_cons]
      omega
    simp [fillOptImages, h4, List.take_succ_cons]

/-- The appended cards hold the remaining queue in order, followed only by
the trailing empty slots of the last card. -/
theorem fillNewCardsAux_images :
    ∀ (fuel seed : ℕ) (q : List ImageRec), q.length ≤ fuel →
      slotImages (fillNewCardsAux fuel seed q) =
        q.map some ++ List.replicate (4 * ((q.length + 3) / 4) - q.length) none := by
  intro fuel
  induction fuel with
  | zero =>
    intro seed q hq
    have hq2 : q = [] := List.eq_nil_of_length_eq_zero (by omega)
    subst hq2
    rfl
  | succ fuel ih =>
    intro seed q hq
    cases q with
    | nil => simp [fillNewCardsAux, slotImages_nil]
    | cons a q2 =>
      simp only [List.length_cons] at hq
      have hr : (fillSlots (createEmptyCard seed).slots (a :: q2)).2
          = (a :: q2).drop (min 4 (a :: q2).length) := by
        rw [fillSlots_snd, createEmptyCard_emptyCount]
      have hrlen : ((a :: q2).drop (min 4 (a :: q2).length)).length
          = q2.length + 1 - min 4 (q2.length + 1) := by
        rw [List.length_drop, List.length_cons]
      simp only [fillNewCardsAux]
      rw [slotImages_cons]
      have hhead : ({ createEmptyCard seed with
            slots := (fillSlots (createEmptyCard seed).slots (a :: q2)).1 } : Card).slots
          = (fillSlots (createEmptyCard seed).slots (a :: q2)).1 := rfl
      rw [hhead, fillSlots_image_map, createEmptyCard_images, fillOptImages_four_none,
        hr, ih (seed + 1) _ (by rw [hrlen]; omega)]
      rcases le_or_lt 4 (q2.length + 1) with h4 | h4
      · have hm : min 4 (a :: q2).length = 4 := by
          simp only [List.length_cons]
          omega
        rw [hm]
        simp only [Nat.sub_self, List.replicate_zero, List.append_nil]
        have hA : 4 * (((List.drop 4 (a :: q2)).length + 3) / 4) -
              (List.drop 4 (a :: q2)).length
            = 4 * (((a :: q2).length + 3) / 4) - (a :: q2).length := by
          rw [List.length_drop]
          simp only [List.length_cons]
          omega
        rw [hA, ← List.append_assoc, ← List.map_append, List.take_append_drop]
      · have hm : min 4 (a :: q2).length = (a :: q2).length := by
          simp only [List.length_cons]
          omega
        have htake : (a :: q2).take 4 = a :: q2 :=
          List.take_of_length_le (by simp only [List.length_cons]; omega)
        have hdrop : (a :: q2).drop ((a :: q2).length) = [] :=
          List.drop_of_length_le (le_refl _)
        rw [hm, htake, hdrop]
        have hB : (4 : ℕ) * ((([] : List ImageRec).length + 3) / 4) -
            ([] : List ImageRec).length = 0 := by
          simp
        rw [hB]
        simp only [List.map_nil, List.replicate_zero, List.append_nil, List.nil_append]
        have hC : 4 - (a :: q2).length
            = 4 * (((a :: q2).length + 3) / 4) - (a :: q2).length := by
          simp only [List.length_cons]
          omega
        rw [hC]

/-- Every slot of an appended card has rotation and offsets zero. -/
theorem fillNewCardsAux_mem_reset :
    ∀ (fuel seed : ℕ) (q : List ImageRec), ∀ c ∈ fillNewCardsAux fuel seed q,
      ∀ s ∈ c.slots, s.rotationDeg = 0 ∧ s.offsetX = 0 ∧ s.offsetY = 0 := by
  intro fuel
  induction fuel with
  | zero => intro seed q c hc; simp [fillNewCardsAux] at hc
  | succ fuel ih =>
    intro seed q c hc
    cases q with
    | nil => simp [fillNewCardsAux] at hc
    | cons a q2 =>
      simp only [fillNewCardsAux] at hc
      rcases List.mem_cons.mp hc with h | h
      · subst h
        intro s hs
        rcases fillSlots_mem_reset _ _ s hs with h2 | h2
        · exact createEmptyCard_mem_reset seed s h2
        · exact h2
      · exact ih (seed + 1) _ c h

theorem fillNewCards_length (seed : ℕ) (q : List ImageRec) :
    (fillNewCards seed q).length = (q.length + 3) / 4 :=
  fillNewCardsAux_length q.length seed q (le_refl _)

theorem fillNewCards_totalSlots (seed : ℕ) (q : List ImageRec) :
    totalSlots (fillNewCards seed q) = 4 * ((q.length + 3) / 4) :=
  fillNewCardsAux_totalSlots q.length seed q (le_refl _)

theorem fillNewCards_images (seed : ℕ) (q : List ImageRec) :
    slotImages (fillNewCards seed q) =
      q.map some ++ List.replicate (4 * ((q.length + 3) / 4) - q.length) none :=
  fillNewCardsAux_images q.length seed q (le_refl _)

/-- An empty queue leaves every card untouched. -/
theorem fillCards_nil_queue (cards : List Card) : fillCards cards [] = (cards, []) := by
  induction cards with
  | nil => rfl
  | cons c rest ih => simp [fillCards, fillSlots_nil_queue, ih]

/-- `autoFill` always equals the fill-existing-then-append composition:
when the queue is empty both passes are no-ops. -/
theorem autoFill_unfold (seed : ℕ) (images : List ImageRec) (cards : List Card) :
    autoFill seed images cards =
      (fillCards cards (autoQueue images cards)).1 ++
        fillNewCards seed (fillCards cards (autoQueue images cards)).2 := by
  by_cases hq : (autoQueue images cards).isEmpty
  · have hnil : autoQueue images cards = [] := by simpa using hq
    unfold autoFill
    rw [if_pos hq, hnil, fillCards_nil_queue]
    simp [fillNewCards, fillNewCardsAux]
  · unfold autoFill
    rw [if_neg hq]

/-- A list containing a rejected entry makes `Promise.all` reject. -/
theorem promiseAll_error {ε α : Type} :
    ∀ xs : List (Except ε α), (∃ e : ε, Except.error e ∈ xs) →
      ∃ e2 : ε, promiseAll xs = Except.error e2 := by
  intro xs
  induction xs with
  | nil =>
    rintro ⟨e, he⟩
    simp at he
  | cons x rest ih =>
    rintro ⟨e, he⟩
    cases x with
    | error e0 => exact ⟨e0, rfl⟩
    | ok a =>
      have hmem : Except.error e ∈ rest := by
        rcases List.mem_cons.mp he with h | h
        · simp at h
        · exact h
      obtain ⟨e2, h2⟩ := ih ⟨e, hmem⟩
      refine ⟨e2, ?_⟩
      simp [promiseAll, h2, Except.map]

/-- C2 (counterexample): a batch of two image files in which the first
decodes successfully and the second fails adds nothing to an empty library:
the successfully decoding sibling is not added, contradicting the claim
that only the failing entry is dropped. -/
theorem handleFiles_sibling_not_added :
    fileOk.decode = Except.ok imgA ∧ imgA ∉ handleFiles [] [fileOk, fileBad] := by
  decide

/-- C2 (amended): when any image-typed file of a batch fails to decode, the
whole batch is rejected by `Promise.all` and dropped: no file of that batch
— successfully decoded siblings included — is added, and the library is
left unchanged. (Previously resolved batches are unaffected, being already
in the library.) -/
theorem handleFiles_drops_whole_batch (library : List ImageRec) (files : List FileInput)
    (h : ∃ f ∈ files, f.typeIsImage = true ∧ ∃ e, f.decode = Except.error e) :
    handleFiles library files = library := by
  obtain ⟨f, hf, htype, e, herr⟩ := h
  have hmem : Except.error e ∈
      (files.filter (fun f2 => f2.typeIsImage)).map (fun f2 => f2.decode) :=
    List.mem_map.mpr ⟨f, List.mem_filter.mpr ⟨hf, htype⟩, herr⟩
  obtain ⟨e2, h2⟩ := promiseAll_error _ ⟨e, hmem⟩
  simp [handleFiles, loadImages, h2]

/-- C2 (witness): a concrete library survives a batch containing one
failing decode untouched. -/
theorem handleFiles_drops_whole_batch_witness :
    handleFiles [img2] [fileOk, fileBad] = [img2] :=
  handleFiles_drops_whole_batch [img2] [fileOk, fileBad]
    ⟨fileBad, List.mem_cons_of_mem fileOk (List.mem_cons_self fileBad []), rfl, (), rfl⟩

/-- C3 (counterexample): placing the fourth image into the one remaining
empty slot of the single card makes the last card full, yet the collection
still has exactly one card — no fresh empty card is appended. -/
theorem placeImage_fills_last_card_without_append :
    (placeImage [imgA, img2, img3, img4] [cardNearFull] 1 13 4).length = 1 ∧
      ∀ s ∈ flatSlots (placeImage [imgA, img2, img3, img4] [cardNearFull] 1 13 4),
        s.image ≠ none := by
  decide

/-- C3 (amended): a fill operation that causes the last card to become full
does not append a fresh empty card. The manual place operation never
changes the number of cards, and one auto-fill pass appends exactly
`ceil(max(0, L_unused − E) / 4)` cards (in truncated natural subtraction) —
zero whenever the unused images fit the existing empty slots, even when the
last card becomes full; cards are otherwise appended only by the explicit
add-card action. -/
theorem fill_operations_never_append_on_full (seed : ℕ) (images : List ImageRec)
    (cards : List Card) (cardId slotId imageId : ℕ) :
    (placeImage images cards cardId slotId imageId).length = cards.length ∧
      (autoFill seed images cards).length =
        cards.length +
          ((autoQueue images cards).length -
            min (emptyCount cards) (autoQueue images cards).length + 3) / 4 := by
  constructor
  · unfold placeImage
    cases images.find? (fun i => i.id == imageId) <;> simp
  · rw [autoFill_unfold, List.length_append, fillCards_fst_length, fillNewCards_length,
      fillCards_snd_length]

/-- C5 (counterexample): with one unused image and one pre-existing card of
four empty slots (`L_unused = 1 < E = 4`), the auto-fill pass creates no
new card and three empty slots remain — all of them in the pre-existing
card — so the remaining empty slots do not exist only in newly created
cards. -/
theorem autoFill_leaves_empties_in_existing_card :
    (autoFill 7 [img5] [createEmptyCard 0]).length = 1 ∧
      emptyCount (autoFill 7 [img5] [createEmptyCard 0]) = 3 := by
  decide

/-- C5 (amended): writing `n` for the number of library images not yet
referenced by any slot (`autoQueue`, kept in library order) and `E` for the
number of empty slots beforehand, one auto-fill pass satisfies: the total
slot count grows by exactly `4 * ceil(max(0, n − E) / 4)` (conjunct 1, with
truncated natural subtraction); walking cards in order and slots in index
order, the slot contents equal the specification-order allocation
(`fillOptImages`) over the existing cards followed by the overflow images
in order in the appended cards, with only the trailing slots of the last
appended card left empty (conjunct 2); the empty slots remaining in the
pre-existing cards number exactly `E − min(E, n)`, so remaining empty slots
exist only in newly created cards whenever `n ≥ E` — but not when `n < E`
(conjunct 3); and every slot of the result is an untouched original slot or
has rotation and offsets `0`, so each filled slot was reset (conjunct 4). -/
theorem autoFill_allocation (seed : ℕ) (images : List ImageRec) (cards : List Card) :
    totalSlots (autoFill seed images cards) =
        totalSlots cards +
          4 * (((autoQueue images cards).length -
              min (emptyCount cards) (autoQueue images cards).length + 3) / 4) ∧
      slotImages (autoFill seed images cards) =
        fillOptImages (slotImages cards) (autoQueue images cards) ++
          ((autoQueue images cards).drop
              (min (emptyCount cards) (autoQueue images cards).length)).map some ++
          List.replicate
            (4 * (((autoQueue images cards).length -
                min (emptyCount cards) (autoQueue images cards).length + 3) / 4) -
              ((autoQueue images cards).length -
                min (emptyCount cards) (autoQueue images cards).length)) none ∧
      emptyCount ((autoFill seed images cards).take cards.length) =
        emptyCount cards - min (emptyCount cards) (autoQueue images cards).length ∧
      ∀ s ∈ flatSlots (autoFill seed images cards),
        s ∈ flatSlots cards ∨ (s.rotationDeg = 0 ∧ s.offsetX = 0 ∧ s.offsetY = 0) := by
  refine ⟨?_, ?_, ?_, ?_⟩
  · rw [autoFill_unfold, totalSlots_append, fillCards_totalSlots, fillNewCards_totalSlots,
      fillCards_snd_length]
  · rw [autoFill_unfold, slotImages_append, fillCards_image_map, fillNewCards_images,
      fillCards_snd, List.length_drop, List.append_assoc]
  · rw [autoFill_unfold, ← fillCards_fst_length cards (autoQueue images cards),
      List.take_left, fillCards_emptyCount]
  · intro s hs
    rw [autoFill_unfold, flatSlots_append] at hs
    rcases List.mem_append.mp hs with h | h
    · exact fillCards_mem_reset _ _ s h
    · right
      simp only [flatSlots, List.mem_flatten, List.mem_map] at h
      obtain ⟨l, ⟨c, hc, rfl⟩, hsl⟩ := h
      exact fillNewCardsAux_mem_reset _ _ _ c hc s hsl

/-- C5 (witness): the specification example — one empty card and six unused
images — grows the slot count by the stated formula, concretely from `4`
to `8` (one appended card). -/
theorem autoFill_allocation_witness :
    totalSlots (autoFill 50 imgs6 [createEmptyCard 0]) =
        totalSlots [createEmptyCard 0] +
          4 * (((autoQueue imgs6 [createEmptyCard 0]).length -
              min (emptyCount [createEmptyCard 0])
                (autoQueue imgs6 [createEmptyCard 0]).length + 3) / 4) ∧
      totalSlots (autoFill 50 imgs6 [createEmptyCard 0]) = 8 :=
  ⟨(autoFill_allocation 50 imgs6 [createEmptyCard 0]).1, by decide⟩

end FreePrint
